import Mathlib

/-!
Verification development for the mado/kobo per-user daemon.

The Rust sources are shallowly embedded: pure fragments become Lean
functions, stateful fragments become explicit state passing, and the
filesystem is an association list from paths to file contents.  JSON
serialisation (serde_json) is modelled at the level of JSON trees: a
file written by `serde_json::to_string_pretty` holds the corresponding
tree, and parsing it back yields the same tree.
-/

namespace Mado

/-- Association-list lookup, first match wins (models map lookup). -/
def alookup {α : Type} : List (String × α) → String → Option α
  | [], _ => none
  | (k, v) :: rest, key => if k = key then some v else alookup rest key

/-- Remove every binding of a key (models file removal / map erase). -/
def aerase {α : Type} (l : List (String × α)) (key : String) : List (String × α) :=
  l.filter (fun kv => kv.1 ≠ key)

/-- Overwrite the binding of a key (models file create / map insert). -/
def awrite {α : Type} (l : List (String × α)) (key : String) (v : α) : List (String × α) :=
  (key, v) :: aerase l key

theorem alookup_awrite_self {α : Type} (l : List (String × α)) (k : String) (v : α) :
    alookup (awrite l k v) k = some v := by
  simp [awrite, alookup]

theorem alookup_aerase {α : Type} (l : List (String × α)) (k : String) :
    alookup (aerase l k) k = none := by
  induction l with
  | nil => simp [aerase, alookup]
  | cons hd tl ih =>
    by_cases h : hd.1 = k
    · simpa [aerase, h] using ih
    · simpa [aerase, alookup, h] using ih

theorem alookup_aerase_ne {α : Type} (l : List (String × α)) (k q : String) (h : q ≠ k) :
    alookup (aerase l k) q = alookup l q := by
  induction l with
  | nil => rfl
  | cons hd tl ih =>
    by_cases hk : hd.1 = k
    · have h1 : aerase (hd :: tl) k = aerase tl k := by
        simp [aerase, List.filter_cons, hk]
      have hq : hd.1 ≠ q := by rw [hk]; exact Ne.symm h
      have h2 : alookup (hd :: tl) q = alookup tl q := by
        simp [alookup, hq]
      rw [h1, h2]; exact ih
    · have h1 : aerase (hd :: tl) k = hd :: aerase tl k := by
        simp [aerase, List.filter_cons, hk]
      rw [h1]
      by_cases hq : hd.1 = q
      · simp [alookup, hq]
      · simp [alookup, hq]
        exact ih

theorem alookup_awrite_ne {α : Type} (l : List (String × α)) (k q : String) (v : α)
    (h : q ≠ k) : alookup (awrite l k v) q = alookup l q := by
  have hk : k ≠ q := fun hkq => h hkq.symm
  simp [awrite, alookup, hk]
  exact alookup_aerase_ne l k q h

/-- Timestamps are represented by their canonical RFC 3339 rendering,
which is how `chrono::DateTime<Utc>` crosses the serde boundary. -/
structure Timestamp where
  rfc3339 : String
deriving DecidableEq, Repr

/-- JSON trees, the serde data model underneath `serde_json`. -/
inductive Json where
  | str (s : String)
  | num (n : Nat)
  | jbool (b : Bool)
  | null
  | obj (fields : List (String × Json))

/-- Field lookup in a JSON object, as serde performs it during
struct deserialisation. -/
def Json.getField : Json → String → Option Json
  | .obj fields, name => alookup fields name
  | _, _ => none

namespace Kobo

/-- Session status enum from kobo-core/src/types.rs (serde snake_case). -/
inductive SessionStatus where
  | Active
  | Idle
  | Suspended
  | Terminated
deriving DecidableEq, Repr

/-- Session record from kobo-core/src/types.rs.  `SessionId` is a newtype
over `String` and serialises transparently, so it is inlined here. -/
structure Session where
  id : String
  name : String
  model : String
  status : SessionStatus
  created_at : Timestamp
  updated_at : Timestamp
  working_dir : Option String
  command : Option String
  shell_fallback : Bool
deriving DecidableEq, Repr

/-- Persistent daemon state from kobo-daemon/src/state.rs: the session
map (`HashMap<String, Session>`), modelled as an association list in
iteration order. -/
structure DaemonState where
  sessions : List (String × Session)
deriving Repr

instance : Inhabited DaemonState := ⟨⟨[]⟩⟩

/-- Serde encoding of `SessionStatus` (rename_all = snake_case). -/
def SessionStatus.toJson : SessionStatus → Json
  | .Active => .str "active"
  | .Idle => .str "idle"
  | .Suspended => .str "suspended"
  | .Terminated => .str "terminated"

/-- Serde decoding of `SessionStatus`. -/
def decodeStatus : Json → Option SessionStatus
  | .str "active" => some .Active
  | .str "idle" => some .Idle
  | .str "suspended" => some .Suspended
  | .str "terminated" => some .Terminated
  | _ => none

/-- Serde encoding of `Option<String>` (None becomes null). -/
def optStrToJson : Option String → Json
  | none => .null
  | some s => .str s

/-- Serde decoding of `Option<String>`. -/
def decodeOptStr : Json → Option (Option String)
  | .null => some none
  | .str s => some (some s)
  | _ => none

/-- Serde decoding of `String`. -/
def decodeStr : Json → Option String
  | .str s => some s
  | _ => none

/-- Serde decoding of `bool`. -/
def decodeBool : Json → Option Bool
  | .jbool b => some b
  | _ => none

/-- Serde encoding of a `Session` (derived Serialize: an object with one
entry per field, in declaration order). -/
def Session.toJson (s : Session) : Json :=
  .obj [("id", .str s.id),
        ("name", .str s.name),
        ("model", .str s.model),
        ("status", s.status.toJson),
        ("created_at", .str s.created_at.rfc3339),
        ("updated_at", .str s.updated_at.rfc3339),
        ("working_dir", optStrToJson s.working_dir),
        ("command", optStrToJson s.command),
        ("shell_fallback", .jbool s.shell_fallback)]

/-- Serde decoding of a `Session` (derived Deserialize; the three
`#[serde(default)]` fields fall back to their defaults when absent). -/
def decodeSession (j : Json) : Option Session := do
  let id ← decodeStr (← j.getField "id")
  let name ← decodeStr (← j.getField "name")
  let model ← decodeStr (← j.getField "model")
  let status ← decodeStatus (← j.getField "status")
  let created_at ← decodeStr (← j.getField "created_at")
  let updated_at ← decodeStr (← j.getField "updated_at")
  let working_dir ← match j.getField "working_dir" with
    | none => some none
    | some v => decodeOptStr v
  let command ← match j.getField "command" with
    | none => some none
    | some v => decodeOptStr v
  let shell_fallback ← match j.getField "shell_fallback" with
    | none => some false
    | some v => decodeBool v
  pure { id := id, name := name, model := model, status := status,
         created_at := ⟨created_at⟩, updated_at := ⟨updated_at⟩,
         working_dir := working_dir, command := command,
         shell_fallback := shell_fallback }

/-- Serde encoding of the `DaemonState` (a JSON object mapping session
ids to session objects). -/
def DaemonState.toJson (st : DaemonState) : Json :=
  .obj (st.sessions.map (fun kv => (kv.1, Session.toJson kv.2)))

/-- Serde decoding of the entries of the session map, in order. -/
def decodeEntries : List (String × Json) → Option (List (String × Session))
  | [] => some []
  | kv :: rest => do
      let s ← decodeSession kv.2
      let tail ← decodeEntries rest
      pure ((kv.1, s) :: tail)

/-- Serde decoding of the `DaemonState`. -/
def decodeState : Json → Option DaemonState
  | .obj fields => do
      let ss ← decodeEntries fields
      pure ⟨ss⟩
  | _ => none

/-- Filesystem for the state store: path to JSON document contents. -/
abbrev FileSys := List (String × Json)

/-- Errors from kobo-daemon/src/state.rs. -/
inductive StateError where
  | IoError (path : String)
  | SerializeFailed
  | DeserializeFailed

/-- Stem of a file name, per Rust `Path::file_stem` (the part before the
last dot, except that a leading dot does not begin an extension). -/
def stemOf (fname : List Char) : List Char :=
  match (fname.reverse.dropWhile (fun c => c ≠ '.')) with
  | [] => fname
  | _ :: rest => if rest = [] then fname else rest.reverse

/-- Rust `path.with_extension("json.tmp")`: replace the extension of the
final path component with `json.tmp`. -/
def withExtensionJsonTmp (p : String) : String :=
  let cs := p.toList
  let fname := (cs.reverse.takeWhile (fun c => c ≠ '/')).reverse
  let dir := cs.take (cs.length - fname.length)
  String.mk (dir ++ stemOf fname ++ ".json.tmp".toList)

/-- Rename a file (models `fs::rename`, an atomic replace). -/
def fsRename (fs : FileSys) (src dst : String) : FileSys :=
  match alookup fs src with
  | some contents => awrite (aerase fs src) dst contents
  | none => fs

/-- DaemonState::save from kobo-daemon/src/state.rs: serialise, write the
temporary sibling, fsync, then atomically rename over the target.  In the
pure filesystem model the I/O steps cannot fail, so save returns the new
filesystem. -/
def DaemonState.save (st : DaemonState) (path : String) (fs : FileSys) : FileSys :=
  let json := st.toJson
  let tmp := withExtensionJsonTmp path
  let fs1 := awrite fs tmp json
  fsRename fs1 tmp path

/-- DaemonState::load from kobo-daemon/src/state.rs: missing file yields
the empty state, unparseable contents yield `DeserializeFailed`. -/
def DaemonState.load (path : String) (fs : FileSys) : Except StateError DaemonState :=
  match alookup fs path with
  | none => .ok default
  | some contents =>
      match decodeState contents with
      | some st => .ok st
      | none => .error .DeserializeFailed

theorem decodeStatus_toJson (st : SessionStatus) :
    decodeStatus st.toJson = some st := by
  cases st <;> rfl

theorem decodeOptStr_optStrToJson (o : Option String) :
    decodeOptStr (optStrToJson o) = some o := by
  cases o <;> rfl

theorem decodeSession_toJson (s : Session) :
    decodeSession (Session.toJson s) = some s := by
  cases s with
  | mk id name model status created_at updated_at working_dir command shell_fallback =>
    cases created_at
    cases updated_at
    simp [decodeSession, Session.toJson, Json.getField, alookup,
          decodeStr, decodeStatus_toJson, decodeOptStr_optStrToJson,
          decodeBool, Bind.bind, Option.bind]

theorem decodeEntries_map (l : List (String × Session)) :
    decodeEntries (l.map (fun kv => (kv.1, Session.toJson kv.2))) = some l := by
  induction l with
  | nil => rfl
  | cons hd tl ih =>
    simp [decodeEntries, decodeSession_toJson, ih]

theorem decodeState_toJson (st : DaemonState) :
    decodeState st.toJson = some st := by
  cases st with
  | mk sessions =>
    simp [DaemonState.toJson, decodeState, decodeEntries_map]

/-- C3. DaemonState::save followed by DaemonState::load on the same path
succeeds and returns a state with the same session map: the save writes
the serialised document at `path` (via the temporary file and the atomic
rename), the load finds it there and the serde codec round-trips. -/
theorem state_save_load_roundtrip (S : DaemonState) (p : String) (fs : FileSys) :
    DaemonState.load p (DaemonState.save S p fs) = .ok S := by
  simp only [DaemonState.save, fsRename, alookup_awrite_self, DaemonState.load,
             decodeState_toJson]

end Kobo

namespace Pid

/-- Errors from kobo-daemon/src/pid.rs. -/
inductive PidError where
  | AlreadyRunning (pid : Nat)
  | IoError (path : String)
  | InvalidPidFile (path : String)
deriving DecidableEq, Repr

/-- Filesystem for the PID guard: path to text contents. -/
abbrev TextFs := List (String × String)

/-- Environment of the PID guard: the set of live process ids (what
`kill(pid, 0) == 0` reports) and the calling process id. -/
structure Env where
  alive : List Nat
  selfPid : Nat

/-- Rust `str::trim`: strip leading and trailing whitespace. -/
def rustTrim (s : String) : String :=
  String.mk
    (((s.toList.dropWhile Char.isWhitespace).reverse.dropWhile
      Char.isWhitespace).reverse)

/-- Value of a decimal digit character. -/
def digitVal (c : Char) : Option Nat :=
  if '0' ≤ c ∧ c ≤ '9' then some (c.toNat - '0'.toNat) else none

/-- Accumulate decimal digits, failing on any non-digit. -/
def parseDigitsAux : List Char → Nat → Option Nat
  | [], acc => some acc
  | c :: rest, acc =>
      match digitVal c with
      | some d => parseDigitsAux rest (acc * 10 + d)
      | none => none

/-- Rust `str::parse::<u32>`: optional leading plus sign, one or more
decimal digits, value within the u32 range. -/
def rustParseU32 (s : String) : Option Nat :=
  let cs :=
    match s.toList with
    | '+' :: rest => rest
    | cs => cs
  match cs with
  | [] => none
  | _ =>
      match parseDigitsAux cs 0 with
      | some n => if n < 2 ^ 32 then some n else none
      | none => none

/-- PidFile::acquire from kobo-daemon/src/pid.rs.  When the PID file
exists, read and parse it; a live owner fails with AlreadyRunning, a
dead owner has its PID file and (when given and present) its paired
socket file removed; then the caller PID is written.  Returns the new
filesystem together with the handle path. -/
def acquire (env : Env) (fs : TextFs) (path : String) (socketPath : Option String) :
    Except PidError (TextFs × String) :=
  match alookup fs path with
  | some contents =>
      match rustParseU32 (rustTrim contents) with
      | none => .error (.InvalidPidFile path)
      | some existingPid =>
          if existingPid ∈ env.alive then
            .error (.AlreadyRunning existingPid)
          else
            let fs1 := aerase fs path
            let fs2 :=
              match socketPath with
              | some sock =>
                  if (alookup fs1 sock).isSome then aerase fs1 sock else fs1
              | none => fs1
            .ok (awrite fs2 path (toString env.selfPid), path)
  | none => .ok (awrite fs path (toString env.selfPid), path)

/-- C4. When the PID file contents parse to a PID that is not alive,
acquire succeeds, the stale socket is gone, and the PID file holds the
caller PID; when the parsed PID is alive, acquire fails with
AlreadyRunning carrying that PID. -/
theorem pidfile_acquire_spec (env : Env) (fs : TextFs) (pidPath sockPath : String)
    (contents : String) (P : Nat)
    (hfile : alookup fs pidPath = some contents)
    (hparse : rustParseU32 (rustTrim contents) = some P)
    (hdistinct : sockPath ≠ pidPath) :
    (P ∉ env.alive →
      ∃ fs', acquire env fs pidPath (some sockPath) = .ok (fs', pidPath) ∧
        alookup fs' pidPath = some (toString env.selfPid) ∧
        alookup fs' sockPath = none) ∧
    (P ∈ env.alive →
      acquire env fs pidPath (some sockPath) = .error (.AlreadyRunning P)) := by
  constructor
  · intro hdead
    simp only [acquire, hfile, hparse, if_neg hdead]
    refine ⟨_, rfl, alookup_awrite_self _ _ _, ?_⟩
    rw [alookup_awrite_ne _ _ _ _ hdistinct]
    by_cases hsock : (alookup (aerase fs pidPath) sockPath).isSome
    · simp only [hsock, if_true]
      exact alookup_aerase _ _
    · simp only [hsock, if_false]
      simpa using hsock
  · intro halive
    simp only [acquire, hfile, hparse, if_pos halive]

/-- C4 witness: a stale PID file with PID 99 (not alive) next to a
stale socket is taken over by process 42. -/
theorem pidfile_acquire_spec_witness :
    ∃ fs', acquire ⟨[7], 42⟩ [("d.pid", "99"), ("d.sock", "x")] "d.pid" (some "d.sock") =
        .ok (fs', "d.pid") ∧
      alookup fs' "d.pid" = some (toString (42 : Nat)) ∧
      alookup fs' "d.sock" = none :=
  (pidfile_acquire_spec ⟨[7], 42⟩ [("d.pid", "99"), ("d.sock", "x")] "d.pid" "d.sock"
    "99" 99 (by rfl) (by rfl) (by decide)).1 (by decide)

end Pid

namespace History

/-- Errors from mado-daemon/src/claude_history.rs. -/
inductive HistoryError where
  | ProjectNotFound (path : String)
  | IoError
  | JsonError
deriving DecidableEq, Repr

/-- path_to_project_name from mado-daemon/src/claude_history.rs:
`path.replace('/', "-")` (a single-character pattern, hence a character
map) followed by `trim_start_matches('-')`, which strips every leading
dash. -/
def path_to_project_name (p : String) : String :=
  String.mk ((p.toList.map (fun c => if c = '/' then '-' else c)).dropWhile
    (fun c => c = '-'))

/-- Name of the project directory used by find_project_dir: the code
formats `-` back in front of the trimmed slug. -/
def projectDirName (workingDir : String) : String :=
  "-" ++ path_to_project_name workingDir

/-- find_project_dir from claude_history.rs.  The filesystem is the
list of existing directories under the home. -/
def find_project_dir (home : String) (dirs : List String) (workingDir : String) :
    Option String :=
  let projectPath := home ++ "/.claude/projects/" ++ projectDirName workingDir
  if projectPath ∈ dirs then some projectPath else none

/-- Project-directory resolution step of import_history from
claude_history.rs (lines 191-196): a missing project directory becomes
ProjectNotFound, otherwise the resolved directory is handed on. -/
def import_history_project_dir (home : String) (dirs : List String)
    (workingDir : String) : Except HistoryError String :=
  match find_project_dir home dirs workingDir with
  | none => .error (.ProjectNotFound workingDir)
  | some d => .ok d

/-- Slug claimed by the specification: the path with every slash
replaced by a dash and the leading dash dropped. -/
def claimedSlug (p : String) : String :=
  match p.toList.map (fun c => if c = '/' then '-' else c) with
  | '-' :: rest => String.mk rest
  | r => String.mk r

/-- C7 counterexample: on the working directory /a/b the code resolves
the project directory basename to -a-b (leading dash kept), not the
claimed a-b (leading dash dropped). -/
theorem claude_project_dir_counterexample :
    projectDirName "/a/b" = "-a-b" ∧ claimedSlug "/a/b" = "a-b" ∧
    projectDirName "/a/b" ≠ claimedSlug "/a/b" := by
  refine ⟨rfl, rfl, ?_⟩
  decide

/-- C7 amended: the importer resolves the project directory as
home/.claude/projects/<slug> where <slug> is a dash followed by the
path with every slash replaced by a dash and all leading dashes
dropped; a missing directory yields ProjectNotFound. -/
theorem claude_project_dir_spec (home : String) (dirs : List String) (wd : String) :
    projectDirName wd = "-" ++ path_to_project_name wd ∧
    (find_project_dir home dirs wd = none →
      import_history_project_dir home dirs wd = .error (.ProjectNotFound wd)) ∧
    (∀ d, find_project_dir home dirs wd = some d →
      d = home ++ "/.claude/projects/" ++ projectDirName wd ∧ d ∈ dirs) ∧
    (find_project_dir home dirs wd = none ↔
      (home ++ "/.claude/projects/" ++ projectDirName wd) ∉ dirs) := by
  refine ⟨rfl, ?_, ?_, ?_⟩
  · intro hnone
    simp only [import_history_project_dir, hnone]
  · intro d hd
    simp only [find_project_dir] at hd
    by_cases hmem : (home ++ "/.claude/projects/" ++ projectDirName wd) ∈ dirs
    · rw [if_pos hmem] at hd
      cases hd
      exact ⟨rfl, hmem⟩
    · rw [if_neg hmem] at hd
      cases hd
  · simp only [find_project_dir]
    by_cases hmem : (home ++ "/.claude/projects/" ++ projectDirName wd) ∈ dirs
    · simp [hmem]
    · simp [hmem]

/-- C7 amended witness: with the project directory present the
importer resolves it; with it absent the importer reports
ProjectNotFound. -/
theorem claude_project_dir_spec_witness :
    import_history_project_dir "/home/u" ["/home/u/.claude/projects/-a-b"] "/a/b" =
        .ok "/home/u/.claude/projects/-a-b" ∧
      import_history_project_dir "/home/u" [] "/a/b" =
        .error (.ProjectNotFound "/a/b") := by
  constructor
  · have h := ((claude_project_dir_spec "/home/u" ["/home/u/.claude/projects/-a-b"]
      "/a/b").2.2.1 "/home/u/.claude/projects/-a-b" (by decide))
    simp only [import_history_project_dir]
    rw [show find_project_dir "/home/u" ["/home/u/.claude/projects/-a-b"] "/a/b" =
      some "/home/u/.claude/projects/-a-b" from by decide]
  · exact (claude_project_dir_spec "/home/u" [] "/a/b").2.1 (by decide)

end History

namespace Chat

/-- Message role from mado-core/src/types.rs. -/
inductive MessageRole where
  | User
  | Assistant
  | System
deriving DecidableEq, Repr

/-- Tool call status from mado-core/src/types.rs. -/
inductive ToolCallStatus where
  | Running
  | Completed
  | Failed
deriving DecidableEq, Repr

/-- Tool invocation from mado-core/src/types.rs. -/
structure ToolCall where
  id : String
  name : String
  input : Json
  output : Option String
  status : ToolCallStatus

/-- Token usage from mado-core/src/types.rs. -/
structure TokenUsage where
  input_tokens : Nat
  output_tokens : Nat
  cache_read_tokens : Option Nat
  cache_write_tokens : Option Nat
deriving DecidableEq, Repr

instance : Inhabited TokenUsage := ⟨⟨0, 0, none, none⟩⟩

/-- Chat message from mado-core/src/types.rs.  The f64 cost is modelled
over exact rationals; the only operation performed on it is addition. -/
structure Message where
  id : String
  role : MessageRole
  content : String
  tool_calls : List ToolCall
  timestamp : Timestamp
  usage : Option TokenUsage
  cost_usd : Option Rat

/-- Conversation state from mado-core/src/types.rs. -/
inductive ConversationState where
  | Empty
  | Idle
  | Streaming
  | Error
deriving DecidableEq, Repr

/-- Streaming events from mado-core/src/types.rs. -/
inductive StreamEvent where
  | TextDelta (text : String)
  | ToolUseStart (tool_call_id : String) (name : String) (input : Json)
  | ToolResult (tool_call_id : String) (output : String) (is_error : Bool)
  | MessageComplete (message : Message)
  | Error (message : String)
  | Idle

/-- Per-session conversation state from mado-daemon/src/conversation.rs. -/
structure ConversationSession where
  messages : List Message
  state : ConversationState
  claude_session_id : Option String
  total_usage : TokenUsage
  total_cost_usd : Rat
  working_dir : Option String
  model : String

/-- Errors from mado-daemon/src/conversation.rs. -/
inductive ConversationError where
  | SessionNotFound (id : String)
  | ClaudeNotFound
  | SpawnFailed (msg : String)
  | KillFailed (msg : String)
  | NoActiveResponse
  | IoError

/-- An entry of the active-process table: the child handle, carrying
the outcome its kill signal would have (none means the kill succeeds). -/
structure ChildProc where
  killError : Option String

/-- Mado session record from mado-core/src/types.rs (the persisted
Session with the chat-mode fields). -/
structure MSession where
  id : String
  name : String
  model : String
  status : Kobo.SessionStatus
  created_at : Timestamp
  updated_at : Timestamp
  working_dir : Option String
  command : Option String
  shell_fallback : Bool
  conversation_state : ConversationState
  claude_session_id : Option String
  message_count : Nat
  total_usage : Option TokenUsage
  total_cost_usd : Option Rat

/-- Modelled from the spec: mado-daemon/src/state.rs is not under the
source tree; per the specification and its callers, `DaemonState` is
the persisted mapping from session id to `Session`, with an atomic
`save`.  The save itself is recorded as an effect in the traces
below. -/
structure MDaemonState where
  sessions : List (String × MSession)

/-- In-memory state of the ConversationManager: the per-session
conversation map and the active-process table (the broadcast channels
are modelled by the traces of sent events). -/
structure ConvMgr where
  sessions : List (String × ConversationSession)
  active_processes : List (String × ChildProc)

/-- ConversationManager::get_messages from conversation.rs (lines
516-544): the log is filtered to the strict prefix before `before_id`
(when found), then truncated to the last `limit` entries. -/
def get_messages (mgr : ConvMgr) (session_id : String) (limit : Option Nat)
    (before_id : Option String) : Except ConversationError (List Message) :=
  match alookup mgr.sessions session_id with
  | none => .error (.SessionNotFound session_id)
  | some session =>
      let messages := session.messages
      let messages :=
        match before_id with
        | some bid =>
            match messages.findIdx? (fun m => m.id = bid) with
            | some pos => messages.take pos
            | none => messages
        | none => messages
      let messages :=
        match limit with
        | some lim => messages.drop (messages.length - lim)
        | none => messages
      .ok messages

/-- Specification-side filter: the strict prefix of the log before the
first message whose id equals `before_id`; the whole log when absent
or not found. -/
def specPrefixBefore (before_id : Option String) (L : List Message) : List Message :=
  match before_id with
  | some bid =>
      match L.findIdx? (fun m => m.id = bid) with
      | some pos => L.take pos
      | none => L
  | none => L

/-- Specification-side truncation: the last `limit` entries when a
limit is given. -/
def specLastN (limit : Option Nat) (L : List Message) : List Message :=
  match limit with
  | some lim => L.drop (L.length - lim)
  | none => L

theorem drop_take_middle {α : Type} (L : List α) (i j : Nat) :
    ∃ pre post, L = pre ++ ((L.take i).drop j) ++ post := by
  refine ⟨(L.take i).take j, L.drop i, ?_⟩
  conv_lhs => rw [← List.take_append_drop i L]
  conv_lhs => rw [← List.take_append_drop j (L.take i)]

/-- C9. For an existing session, get_messages returns the before-id
prefix truncated to the last limit entries, and that result is a
contiguous, unmodified slice of the log. -/
theorem get_messages_spec (mgr : ConvMgr) (sid : String) (limit : Option Nat)
    (before_id : Option String) (sess : ConversationSession)
    (hs : alookup mgr.sessions sid = some sess) :
    ∃ M, get_messages mgr sid limit before_id = .ok M ∧
      M = specLastN limit (specPrefixBefore before_id sess.messages) ∧
      ∃ pre post, sess.messages = pre ++ M ++ post := by
  refine ⟨specLastN limit (specPrefixBefore before_id sess.messages), ?_, rfl, ?_⟩
  · cases before_id <;> cases limit <;>
      simp [get_messages, hs, specLastN, specPrefixBefore]
  · have hpre : ∃ i, specPrefixBefore before_id sess.messages = sess.messages.take i := by
      cases before_id with
      | none =>
          exact ⟨sess.messages.length, by simp [specPrefixBefore]⟩
      | some bid =>
          cases hidx : sess.messages.findIdx? (fun m => m.id = bid) with
          | none =>
              exact ⟨sess.messages.length, by simp [specPrefixBefore, hidx]⟩
          | some pos =>
              exact ⟨pos, by simp [specPrefixBefore, hidx]⟩
    obtain ⟨i, hi⟩ := hpre
    have hlast : ∃ j, specLastN limit (specPrefixBefore before_id sess.messages) =
        ((sess.messages.take i).drop j) := by
      cases limit with
      | none => exact ⟨0, by simp [specLastN, hi]⟩
      | some lim =>
          exact ⟨(sess.messages.take i).length - lim, by simp [specLastN, hi]⟩
    obtain ⟨j, hj⟩ := hlast
    rw [hj]
    exact drop_take_middle sess.messages i j

/-- C9 witness: a two-message log with before_id pointing at the
second message and limit 1 yields exactly the first message. -/
theorem get_messages_spec_witness :
    ∃ M, get_messages
        ⟨[("s", ⟨[⟨"m1", .User, "hi", [], ⟨"t1"⟩, none, none⟩,
                  ⟨"m2", .Assistant, "yo", [], ⟨"t2"⟩, none, none⟩],
            .Idle, none, default, 0, none, "sonnet"⟩)], []⟩
        "s" (some 1) (some "m2") = .ok M ∧
      M = specLastN (some 1) (specPrefixBefore (some "m2")
        [⟨"m1", .User, "hi", [], ⟨"t1"⟩, none, none⟩,
         ⟨"m2", .Assistant, "yo", [], ⟨"t2"⟩, none, none⟩]) ∧
      ∃ pre post,
        [⟨"m1", .User, "hi", [], ⟨"t1"⟩, none, none⟩,
         (⟨"m2", .Assistant, "yo", [], ⟨"t2"⟩, none, none⟩ : Message)] = pre ++ M ++ post :=
  get_messages_spec
    ⟨[("s", ⟨[⟨"m1", .User, "hi", [], ⟨"t1"⟩, none, none⟩,
              ⟨"m2", .Assistant, "yo", [], ⟨"t2"⟩, none, none⟩],
        .Idle, none, default, 0, none, "sonnet"⟩)], []⟩
    "s" (some 1) (some "m2")
    ⟨[⟨"m1", .User, "hi", [], ⟨"t1"⟩, none, none⟩,
      ⟨"m2", .Assistant, "yo", [], ⟨"t2"⟩, none, none⟩],
     .Idle, none, default, 0, none, "sonnet"⟩
    (by simp [alookup])

/-- ConversationManager::cancel_response from conversation.rs (lines
493-514).  Returns the new manager state, the events sent on the
broadcast channel, and the error (if any).  The child entry is removed
from the active table before the kill is attempted, so a kill failure
leaves the entry gone but the session state untouched. -/
def cancel_response (m : ConvMgr) (sid : String) :
    ConvMgr × List StreamEvent × Option ConversationError :=
  match alookup m.active_processes sid with
  | none => (m, [], some .NoActiveResponse)
  | some child =>
      let m1 : ConvMgr := { m with active_processes := aerase m.active_processes sid }
      match child.killError with
      | some msg => (m1, [], some (.KillFailed msg))
      | none =>
          let sessions' :=
            match alookup m1.sessions sid with
            | some s => awrite m1.sessions sid { s with state := ConversationState.Idle }
            | none => m1.sessions
          ({ m1 with sessions := sessions' }, [StreamEvent.Idle], none)

/-- C10. When the kill signal fails, cancel_response returns KillFailed
with the child entry already removed, the session still Streaming and
no Idle event; a second cancel_response then reports NoActiveResponse. -/
theorem cancel_response_kill_failed (m : ConvMgr) (sid : String) (child : ChildProc)
    (sess : ConversationSession) (msg : String)
    (hc : alookup m.active_processes sid = some child)
    (hk : child.killError = some msg)
    (hs : alookup m.sessions sid = some sess)
    (hstream : sess.state = ConversationState.Streaming) :
    ∃ m', cancel_response m sid = (m', [], some (.KillFailed msg)) ∧
      alookup m'.active_processes sid = none ∧
      alookup m'.sessions sid = some sess ∧
      sess.state = ConversationState.Streaming ∧
      cancel_response m' sid = (m', [], some .NoActiveResponse) := by
  refine ⟨{ m with active_processes := aerase m.active_processes sid }, ?_, ?_, hs, hstream, ?_⟩
  · simp only [cancel_response, hc, hk]
  · exact alookup_aerase _ _
  · simp only [cancel_response, alookup_aerase]

/-- C10 witness: a session streaming with a child whose kill fails. -/
theorem cancel_response_kill_failed_witness :
    ∃ m', cancel_response
        ⟨[("s", ⟨[], .Streaming, none, default, 0, none, "sonnet"⟩)],
         [("s", ⟨some "EPERM"⟩)]⟩ "s" = (m', [], some (.KillFailed "EPERM")) ∧
      alookup m'.active_processes "s" = none ∧
      alookup m'.sessions "s" = some ⟨[], .Streaming, none, default, 0, none, "sonnet"⟩ ∧
      (⟨[], .Streaming, none, default, 0, none, "sonnet"⟩ : ConversationSession).state =
        ConversationState.Streaming ∧
      cancel_response m' "s" = (m', [], some .NoActiveResponse) :=
  cancel_response_kill_failed
    ⟨[("s", ⟨[], .Streaming, none, default, 0, none, "sonnet"⟩)],
     [("s", ⟨some "EPERM"⟩)]⟩ "s" ⟨some "EPERM"⟩
    ⟨[], .Streaming, none, default, 0, none, "sonnet"⟩ "EPERM"
    (by simp [alookup]) rfl (by simp [alookup]) rfl

/-- Errors of the mado process manager, mirrored from the kobo
counterpart kobo-daemon/src/process.rs. -/
inductive ProcessError where
  | SessionNotFound (id : String)
deriving DecidableEq, Repr

/-- Errors from mado-daemon/src/session.rs. -/
inductive SessionError where
  | ProcessError (e : ProcessError)
deriving DecidableEq, Repr

/-- Modelled from the spec: mado-daemon/src/process.rs is not under the
source tree.  Per the specification (C5, PTY supervisor) and the kobo
counterpart, the process manager keeps a map from session id to the
managed PTY child; has_process reports membership and destroy removes
the entry and kills the child (a kill failure is only logged). -/
structure ProcMgr where
  procs : List String

/-- ProcessManager::has_process (membership in the process table). -/
def ProcMgr.has_process (pm : ProcMgr) (id : String) : Bool :=
  pm.procs.contains id

/-- ProcessManager::destroy: remove the entry and kill the child;
absent entry reports SessionNotFound. -/
def ProcMgr.destroy (pm : ProcMgr) (id : String) : Except ProcessError ProcMgr :=
  if pm.procs.contains id then
    .ok ⟨pm.procs.filter (fun p => p ≠ id)⟩
  else .error (.SessionNotFound id)

/-- State touched by the SessionManager from mado-daemon/src/session.rs:
the shared daemon state and the process manager. -/
structure MgrState where
  state : MDaemonState
  pm : ProcMgr

/-- SessionManager::destroy_session from session.rs (lines 120-138):
kill the process when one exists, then remove the session from the
state map entirely. -/
def destroy_session (m : MgrState) (id : String) : Except SessionError MgrState :=
  if m.pm.has_process id then
    match m.pm.destroy id with
    | .error e => .error (.ProcessError e)
    | .ok pm' => .ok ⟨⟨aerase m.state.sessions id⟩, pm'⟩
  else .ok ⟨⟨aerase m.state.sessions id⟩, m.pm⟩

/-- Response variants of the DELETE /sessions/:id endpoint (the slice
of the DaemonResponse enum this endpoint produces). -/
inductive DestroyResponse where
  | Pong
  | Error (message : String)
deriving DecidableEq, Repr

/-- Rendering of a session error, as e.to_string() produces it. -/
def sessionErrorMessage : SessionError → String
  | .ProcessError (.SessionNotFound id) => "Process error: Session not found: " ++ id

/-- destroy_session_handler from mado-daemon/src/server.rs (lines
318-329): Ok becomes the Pong acknowledgement. -/
def destroy_session_handler (m : MgrState) (id : String) :
    MgrState × DestroyResponse :=
  match destroy_session m id with
  | .ok m' => (m', .Pong)
  | .error e => (m, .Error (sessionErrorMessage e))

theorem aerase_of_alookup_none {α : Type} (l : List (String × α)) (k : String)
    (h : alookup l k = none) : aerase l k = l := by
  induction l with
  | nil => rfl
  | cons hd tl ih =>
    by_cases hk : hd.1 = k
    · simp [alookup, hk] at h
    · have htl : alookup tl k = none := by
        simpa [alookup, hk] using h
      simp [aerase, List.filter_cons, hk] at *
      exact ih htl

/-- C8. destroy_session on an id with no live process and no session
entry succeeds without changing the session map or the process table,
and the handler answers with Pong. -/
theorem destroy_unknown_session_noop (m : MgrState) (id : String)
    (hp : id ∉ m.pm.procs)
    (hs : alookup m.state.sessions id = none) :
    destroy_session m id = .ok m ∧
    destroy_session_handler m id = (m, .Pong) := by
  have hc : m.pm.has_process id = false := by
    simp [ProcMgr.has_process, hp]
  have hok : destroy_session m id = .ok m := by
    simp only [destroy_session, hc, Bool.false_eq_true, if_false,
               aerase_of_alookup_none _ _ hs]
  exact ⟨hok, by simp only [destroy_session_handler, hok]⟩

/-- C8 witness: destroying a session id unknown to both tables. -/
theorem destroy_unknown_session_noop_witness :
    destroy_session ⟨⟨[]⟩, ⟨["other"]⟩⟩ "ghost" = .ok ⟨⟨[]⟩, ⟨["other"]⟩⟩ ∧
    destroy_session_handler ⟨⟨[]⟩, ⟨["other"]⟩⟩ "ghost" =
      (⟨⟨[]⟩, ⟨["other"]⟩⟩, .Pong) :=
  destroy_unknown_session_noop ⟨⟨[]⟩, ⟨["other"]⟩⟩ "ghost" (by decide) rfl

/-- Parsed stream-json events from the claude child, as the reader
loop in conversation.rs dispatches on the type field; fields the code
does not inspect are omitted. -/
inductive ClaudeEvent where
  | assistant (textBlocks : List String)
  | contentBlockDelta (text_delta : Option String)
  | contentBlockStart (tool_use : Option (String × String))
  | result (session_id : Option String) (cost_usd : Option Rat)
      (usage : Option TokenUsage)
  | other

/-- Environment of the reader task: the uuid supply and the clock. -/
structure ReaderEnv where
  fresh : Nat → String
  now : Timestamp

/-- Local accumulator of the reader loop (conversation.rs lines
288-292), together with the events sent on the broadcast channel so
far. -/
structure ReaderAcc where
  accumulated_text : String
  tool_calls : List ToolCall
  final_usage : Option TokenUsage
  final_cost : Option Rat
  final_claude_sid : Option String
  sent : List StreamEvent

/-- Initial reader accumulator. -/
def initAcc : ReaderAcc := ⟨"", [], none, none, none, []⟩

/-- One iteration of the reader loop (conversation.rs lines 319-430):
dispatch on the event type, accumulate, and send stream events.  The
Nat component counts the uuids drawn so far. -/
def processEvent (env : ReaderEnv) (st : ReaderAcc × Nat) (e : ClaudeEvent) :
    ReaderAcc × Nat :=
  let acc := st.1
  let n := st.2
  match e with
  | .assistant textBlocks =>
      (textBlocks.foldl (fun a t =>
        { a with accumulated_text := a.accumulated_text ++ t,
                 sent := a.sent ++ [StreamEvent.TextDelta t] }) acc, n)
  | .contentBlockDelta t1 =>
      match t1 with
      | some t =>
          ({ acc with
              accumulated_text := acc.accumulated_text ++ t,
              sent := acc.sent ++ [StreamEvent.TextDelta t] }, n)
      | none => (acc, n)
  | .contentBlockStart tu =>
      match tu with
      | some (tid, tname) =>
          ({ acc with
              sent := acc.sent ++ [StreamEvent.ToolUseStart tid tname (Json.obj [])],
              tool_calls := acc.tool_calls ++
                [⟨tid, tname, Json.obj [], none, .Running⟩] }, n)
      | none => (acc, n)
  | .result session_id cost_usd usage =>
      let usage' :=
        match usage with
        | some u => some u
        | none => acc.final_usage
      let msg : Message :=
        ⟨env.fresh n, .Assistant, acc.accumulated_text, acc.tool_calls, env.now,
         usage', cost_usd⟩
      ({ acc with
          final_claude_sid := session_id,
          final_cost := cost_usd,
          final_usage := usage',
          sent := acc.sent ++ [StreamEvent.MessageComplete msg] }, n + 1)
  | .other => (acc, n)

/-- Effects visible outside the reader task: broadcast sends and disk
saves of the daemon state (the save itself always succeeds in the pure
filesystem model). -/
inductive Eff where
  | send (e : StreamEvent)
  | saveState (st : MDaemonState)

/-- Epilogue of the reader task (conversation.rs lines 433-487): under
the session lock push the final assistant message, update metadata and
set the state Idle; persist the claude session id into the daemon
state and save it when one was captured; remove the active-process
entry; finally send the Idle event. -/
def readerFinish (env : ReaderEnv) (sid : String) (acc : ReaderAcc) (n : Nat)
    (mgr : ConvMgr) (daemon : MDaemonState) :
    ConvMgr × MDaemonState × List Eff :=
  let sessions' :=
    match alookup mgr.sessions sid with
    | some s =>
        let s :=
          if acc.accumulated_text ≠ "" then
            { s with messages := s.messages ++
                [⟨env.fresh n, .Assistant, acc.accumulated_text, acc.tool_calls,
                  env.now, acc.final_usage, acc.final_cost⟩] }
          else s
        let s :=
          match acc.final_claude_sid with
          | some csid => { s with claude_session_id := some csid }
          | none => s
        let s :=
          match acc.final_usage with
          | some u =>
              { s with total_usage :=
                  { s.total_usage with
                    input_tokens := s.total_usage.input_tokens + u.input_tokens,
                    output_tokens := s.total_usage.output_tokens + u.output_tokens } }
          | none => s
        let s :=
          match acc.final_cost with
          | some c => { s with total_cost_usd := s.total_cost_usd + c }
          | none => s
        awrite mgr.sessions sid { s with state := ConversationState.Idle }
    | none => mgr.sessions
  let next :=
    match acc.final_claude_sid with
    | some csid =>
        match alookup daemon.sessions sid with
        | some ds =>
            let d' : MDaemonState :=
              ⟨awrite daemon.sessions sid
                { ds with claude_session_id := some csid, updated_at := env.now }⟩
            (d', [Eff.saveState d'])
        | none => (daemon, ([] : List Eff))
    | none => (daemon, ([] : List Eff))
  let mgr' : ConvMgr :=
    { sessions := sessions', active_processes := aerase mgr.active_processes sid }
  (mgr', next.1, next.2 ++ [Eff.send StreamEvent.Idle])

/-- The whole reader task: fold the parsed lines through the loop, then
run the epilogue.  The effect trace lists the broadcast sends and the
disk save in program order. -/
def readerRun (env : ReaderEnv) (sid : String) (events : List ClaudeEvent)
    (mgr : ConvMgr) (daemon : MDaemonState) :
    ConvMgr × MDaemonState × List Eff :=
  let st := events.foldl (processEvent env) (initAcc, 0)
  let fin := readerFinish env sid st.1 st.2 mgr daemon
  (fin.1, fin.2.1, st.1.sent.map Eff.send ++ fin.2.2)

theorem assistantFold_no_idle (blocks : List String) (a : ReaderAcc)
    (h : ∀ e ∈ a.sent, e ≠ StreamEvent.Idle) :
    ∀ e ∈ (blocks.foldl (fun a t =>
        { a with accumulated_text := a.accumulated_text ++ t,
                 sent := a.sent ++ [StreamEvent.TextDelta t] }) a).sent,
      e ≠ StreamEvent.Idle := by
  induction blocks generalizing a with
  | nil => exact h
  | cons b rest ih =>
    refine ih _ ?_
    intro e he
    simp only [List.mem_append, List.mem_singleton] at he
    rcases he with he | he
    · exact h e he
    · subst he; intro hcon; cases hcon

theorem processLoop_no_idle (env : ReaderEnv) (events : List ClaudeEvent)
    (st : ReaderAcc × Nat) (h : ∀ e ∈ st.1.sent, e ≠ StreamEvent.Idle) :
    ∀ e ∈ ((events.foldl (processEvent env) st).1.sent), e ≠ StreamEvent.Idle := by
  induction events generalizing st with
  | nil => exact h
  | cons ev rest ih =>
    refine ih _ ?_
    cases ev with
    | assistant blocks =>
        exact assistantFold_no_idle blocks st.1 h
    | contentBlockDelta t1 =>
        cases t1 with
        | none => simpa [processEvent] using h
        | some t =>
            intro e he
            simp only [processEvent, List.mem_append, List.mem_singleton] at he
            rcases he with he | he
            · exact h e he
            · subst he; intro hcon; cases hcon
    | contentBlockStart tu =>
        cases tu with
        | none => simpa [processEvent] using h
        | some p =>
            intro e he
            simp only [processEvent, List.mem_append, List.mem_singleton] at he
            rcases he with he | he
            · exact h e he
            · subst he; intro hcon; cases hcon
    | result s c u =>
        intro e he
        simp only [processEvent, List.mem_append, List.mem_singleton] at he
        rcases he with he | he
        · exact h e he
        · subst he; intro hcon; cases hcon
    | other => simpa [processEvent] using h

/-- C1. When the reader captures a claude session id from a result
event and the daemon state holds the session record, the effect trace
of the turn ends with the state save immediately followed by the Idle
send: everything earlier is a non-Idle broadcast send, and the saved
state already carries the captured id.  No subscriber can therefore
observe Idle while the on-disk record lacks the id. -/
theorem resume_id_saved_before_idle (env : ReaderEnv) (sid : String)
    (events : List ClaudeEvent) (mgr : ConvMgr) (daemon : MDaemonState)
    (csid : String) (ds : MSession)
    (hcap : ((events.foldl (processEvent env) (initAcc, 0)).1).final_claude_sid =
      some csid)
    (hds : alookup daemon.sessions sid = some ds) :
    ∃ pre d',
      (readerRun env sid events mgr daemon).2.2 =
        pre ++ [Eff.saveState d', Eff.send StreamEvent.Idle] ∧
      (∀ e ∈ pre, ∃ ev, e = Eff.send ev ∧ ev ≠ StreamEvent.Idle) ∧
      alookup d'.sessions sid =
        some { ds with claude_session_id := some csid, updated_at := env.now } := by
  refine ⟨((events.foldl (processEvent env) (initAcc, 0)).1).sent.map Eff.send,
    ⟨awrite daemon.sessions sid
      { ds with claude_session_id := some csid, updated_at := env.now }⟩, ?_, ?_, ?_⟩
  · simp [readerRun, readerFinish, hcap, hds]
  · intro e he
    rcases List.mem_map.mp he with ⟨ev, hev, rfl⟩
    exact ⟨ev, rfl, processLoop_no_idle env events (initAcc, 0) (by intro e h; cases h)
      ev hev⟩
  · exact alookup_awrite_self _ _ _

/-- C1 witness: a single result event carrying a session id, with the
session present in the daemon state. -/
theorem resume_id_saved_before_idle_witness :
    ∃ pre d',
      (readerRun ⟨fun n => "u" ++ toString n, ⟨"t0"⟩⟩ "s"
          [ClaudeEvent.result (some "csid") none none] ⟨[], []⟩
          ⟨[("s", ⟨"s", "n", "sonnet", .Active, ⟨"t"⟩, ⟨"t"⟩, none, none, false,
            .Streaming, none, 0, none, none⟩)]⟩).2.2 =
        pre ++ [Eff.saveState d', Eff.send StreamEvent.Idle] ∧
      (∀ e ∈ pre, ∃ ev, e = Eff.send ev ∧ ev ≠ StreamEvent.Idle) ∧
      alookup d'.sessions "s" =
        some { (⟨"s", "n", "sonnet", .Active, ⟨"t"⟩, ⟨"t"⟩, none, none, false,
          .Streaming, none, 0, none, none⟩ : MSession) with
            claude_session_id := some "csid", updated_at := (⟨"t0"⟩ : Timestamp) } :=
  resume_id_saved_before_idle ⟨fun n => "u" ++ toString n, ⟨"t0"⟩⟩ "s"
    [ClaudeEvent.result (some "csid") none none] ⟨[], []⟩
    ⟨[("s", ⟨"s", "n", "sonnet", .Active, ⟨"t"⟩, ⟨"t"⟩, none, none, false,
      .Streaming, none, 0, none, none⟩)]⟩ "csid"
    ⟨"s", "n", "sonnet", .Active, ⟨"t"⟩, ⟨"t"⟩, none, none, false,
      .Streaming, none, 0, none, none⟩
    rfl (by simp [alookup])

end Chat

namespace Git

/-- A tree or working-tree snapshot: file path to its lines. -/
abbrev Tree := List (String × List String)

/-- Union of the keys of two trees. -/
def unionKeys (a b : Tree) : List String :=
  (a.map Prod.fst ++ b.map Prod.fst).dedup

/-- Extensional equality of trees as maps. -/
def treeSame (a b : Tree) : Bool :=
  (unionKeys a b).all (fun p => decide (alookup a p = alookup b p))

/-- A commit: parent oid, tree, message (oids are indices into the
commit list of the repo). -/
structure Commit where
  parent : Option Nat
  tree : Tree
  message : String
deriving DecidableEq, Repr

/-- Git repository state: the commit store, HEAD, the staging index
and the working tree. -/
structure Repo where
  commits : List Commit
  headOid : Nat
  index : Tree
  worktree : Tree
deriving DecidableEq, Repr

/-- Errors from kobo-daemon/src/git_ops.rs (lines 43-56).  The enum has
exactly these constructors; there is no OutOfRange variant. -/
inductive GitError where
  | Git (msg : String)
  | NothingToCommit
  | CommitNotFound (oid : String)
  | PathError (msg : String)
deriving DecidableEq, Repr

/-- Milestone record from git_ops.rs. -/
structure Milestone where
  oid : Nat
  message : String
  timestamp : Timestamp
  files_changed : Nat
  insertions : Nat
  deletions : Nat
deriving DecidableEq, Repr

/-- The tree of HEAD (empty when HEAD is not resolvable; in that case
save_milestone fails before using it). -/
def headTreeD (r : Repo) : Tree :=
  ((r.commits.get? r.headOid).map Commit.tree).getD []

/-- repo.statuses with include_untracked is empty iff index, worktree
and the HEAD tree all agree. -/
def statusesEmpty (r : Repo) : Bool :=
  treeSame r.index (headTreeD r) && treeSame r.worktree r.index

/-- index.add_all with the dot pathspec: every file on disk is added
to or updated in the index; entries for paths absent from the working
tree are kept. -/
def stageAll (index worktree : Tree) : Tree :=
  worktree.foldl (fun acc kv => awrite acc kv.1 kv.2) index

/-- Paths whose contents differ between two trees. -/
def changedPaths (old new : Tree) : List String :=
  (unionKeys old new).filter (fun p => decide (alookup old p ≠ alookup new p))

/-- Line stats of one changed file: insertions are the lines of the
new version not matched in the old (bag difference), deletions the
reverse -- the model of the per-file patch line counts. -/
def fileLineStats (old new : Option (List String)) : Nat × Nat :=
  let o := old.getD []
  let n := new.getD []
  ((n.diff o).length, (o.diff n).length)

/-- Stats of a tree-to-tree diff, as git2 diff.stats() reports them. -/
structure DiffStats where
  files_changed : Nat
  insertions : Nat
  deletions : Nat
deriving DecidableEq, Repr

/-- diff_tree_to_tree followed by stats(): per changed path, the line
stats, summed. -/
def diffStats (old new : Tree) : DiffStats :=
  let ps := changedPaths old new
  ⟨ps.length,
   (ps.map (fun p => (fileLineStats (alookup old p) (alookup new p)).1)).sum,
   (ps.map (fun p => (fileLineStats (alookup old p) (alookup new p)).2)).sum⟩

/-- save_milestone from git_ops.rs (lines 82-138): a clean status fails
with NothingToCommit; otherwise stage everything, commit with parent =
current HEAD, and return the Milestone populated from the stats of the
diff between the parent tree and the new tree. -/
def save_milestone (r : Repo) (message : String) (now : Timestamp) :
    Except GitError (Repo × Milestone) :=
  if statusesEmpty r then
    .error .NothingToCommit
  else
    let index' := stageAll r.index r.worktree
    let newTree := index'
    match r.commits.get? r.headOid with
    | none => .error (.Git "HEAD not resolvable")
    | some parent =>
        let newOid := r.commits.length
        let commit : Commit := ⟨some r.headOid, newTree, message⟩
        let stats := diffStats parent.tree newTree
        .ok ({ r with
                commits := r.commits ++ [commit],
                headOid := newOid,
                index := index' },
             ⟨newOid, message, now, stats.files_changed, stats.insertions,
              stats.deletions⟩)

theorem get?_concat_self {α : Type} (l : List α) (a : α) :
    (l ++ [a]).get? l.length = some a := by
  induction l with
  | nil => rfl
  | cons hd tl ih => simp [ih]

theorem take_concat_self {α : Type} (l : List α) (a : α) :
    (l ++ [a]).take l.length = l := by
  induction l with
  | nil => rfl
  | cons hd tl ih => simp [ih]

/-- C5. With a resolvable HEAD: a non-clean status yields a new commit
whose parent is the previous HEAD and a Milestone whose stats equal
the diff stats from the previous HEAD tree to the newly committed
tree; a clean status fails with NothingToCommit. -/
theorem save_milestone_spec (r : Repo) (message : String) (now : Timestamp)
    (parent : Commit) (hhead : r.commits.get? r.headOid = some parent) :
    (statusesEmpty r = true →
      save_milestone r message now = .error .NothingToCommit) ∧
    (statusesEmpty r = false →
      ∃ r' m c,
        save_milestone r message now = .ok (r', m) ∧
        r'.commits.get? r'.headOid = some c ∧
        c.parent = some r.headOid ∧
        c.tree = stageAll r.index r.worktree ∧
        c.message = message ∧
        m.oid = r'.headOid ∧
        m.files_changed = (diffStats parent.tree c.tree).files_changed ∧
        m.insertions = (diffStats parent.tree c.tree).insertions ∧
        m.deletions = (diffStats parent.tree c.tree).deletions ∧
        r'.commits.length = r.commits.length + 1 ∧
        r'.commits.take r.commits.length = r.commits) := by
  constructor
  · intro hclean
    simp only [save_milestone, hclean, if_true]
  · intro hdirty
    refine ⟨{ r with
        commits := r.commits ++ [⟨some r.headOid, stageAll r.index r.worktree, message⟩],
        headOid := r.commits.length,
        index := stageAll r.index r.worktree },
      ⟨r.commits.length, message, now,
        (diffStats parent.tree (stageAll r.index r.worktree)).files_changed,
        (diffStats parent.tree (stageAll r.index r.worktree)).insertions,
        (diffStats parent.tree (stageAll r.index r.worktree)).deletions⟩,
      ⟨some r.headOid, stageAll r.index r.worktree, message⟩, ?_, ?_,
      rfl, rfl, rfl, rfl, rfl, rfl, rfl, by simp, ?_⟩
    · simp only [save_milestone, hdirty, Bool.false_eq_true, if_false, hhead]
    · exact get?_concat_self _ _
    · exact take_concat_self _ _

/-- C5 witness: one commit, an empty index and a single new file in
the working tree; saving commits it with the initial commit as parent
and stats counting the one added file with its one line. -/
theorem save_milestone_spec_witness :
    ∃ r' m c,
      save_milestone ⟨[⟨none, [], "Initial workspace"⟩], 0, [],
          [("a.txt", ["hello"])]⟩ "m1" ⟨"t1"⟩ = .ok (r', m) ∧
      r'.commits.get? r'.headOid = some c ∧
      c.parent = some 0 ∧
      c.tree = stageAll [] [("a.txt", ["hello"])] ∧
      c.message = "m1" ∧
      m.oid = r'.headOid ∧
      m.files_changed = (diffStats [] c.tree).files_changed ∧
      m.insertions = (diffStats [] c.tree).insertions ∧
      m.deletions = (diffStats [] c.tree).deletions ∧
      r'.commits.length = 1 + 1 ∧
      r'.commits.take 1 = [⟨none, [], "Initial workspace"⟩] :=
  (save_milestone_spec ⟨[⟨none, [], "Initial workspace"⟩], 0, [],
      [("a.txt", ["hello"])]⟩ "m1" ⟨"t1"⟩ ⟨none, [], "Initial workspace"⟩
    (by decide)).2 (by decide)

/-- Helper counting the maximal runs of true flags, carrying the
previous flag (a run starts at a true flag preceded by false). -/
def countRunsFrom (prev : Bool) : List Bool → Nat
  | [] => 0
  | b :: rest => (if b && !prev then 1 else 0) + countRunsFrom b rest

/-- Number of maximal runs of true flags. -/
def countRuns (l : List Bool) : Nat := countRunsFrom false l

/-- Positional change flags of the line-level diff between the old and
new contents of one file. -/
def changedFlags (old new : List String) : List Bool :=
  (List.range (max old.length new.length)).map
    (fun i => decide (old.get? i ≠ new.get? i))

/-- Number of hunks of the unstaged patch of one file. -/
def numHunks (old new : List String) : Nat :=
  countRuns (changedFlags old new)

/-- Membership of position i in the k-th maximal run of changed
positions. -/
def inRun (flags : List Bool) (k i : Nat) : Bool :=
  (flags.get? i).getD false && decide (countRuns (flags.take (i + 1)) = k + 1)

/-- Application of a single hunk to the index copy of a file: within
the k-th run of changed positions the new lines are taken, elsewhere
the old ones. -/
def applyHunk (old new : List String) (k : Nat) : List String :=
  let flags := changedFlags old new
  (List.range (max old.length new.length)).filterMap
    (fun i => if inRun flags k i then new.get? i else old.get? i)

/-- git_stage_hunk from git_ops.rs (lines 681-757): compute the
unstaged (index-to-workdir) patch for the file; with no patch or an
out-of-range hunk index fail with PathError and the stated message,
leaving the repo unchanged; otherwise apply exactly that hunk to the
index. -/
def git_stage_hunk (r : Repo) (file : String) (hunk_index : Nat) :
    Repo × Option GitError :=
  let old := alookup r.index file
  let new := alookup r.worktree file
  if old = new then
    (r, some (.PathError "No patch found for file"))
  else
    let n := numHunks (old.getD []) (new.getD [])
    if hunk_index ≥ n then
      (r, some (.PathError ("Hunk index " ++ toString hunk_index ++
        " out of range (file has " ++ toString n ++ " hunks)")))
    else
      let idx' := awrite r.index file (applyHunk (old.getD []) (new.getD []) hunk_index)
      ({ r with index := idx' }, none)

/-- C6 counterexample: the GitError enum of git_ops.rs has no
OutOfRange constructor at all; an out-of-range hunk index is reported
through the PathError variant.  Concretely: one unstaged hunk, hunk
index 1 yields PathError with the out-of-range message (and the repo,
hence the index, is unchanged), not a dedicated OutOfRange error. -/
theorem stage_hunk_out_of_range_counterexample :
    git_stage_hunk ⟨[⟨none, [("a", ["x"])], "init"⟩], 0, [("a", ["x"])],
        [("a", ["y"])]⟩ "a" 1 =
      (⟨[⟨none, [("a", ["x"])], "init"⟩], 0, [("a", ["x"])], [("a", ["y"])]⟩,
       some (.PathError "Hunk index 1 out of range (file has 1 hunks)")) ∧
    (∀ msg, GitError.PathError msg ≠ GitError.NothingToCommit) := by
  constructor
  · decide
  · intro msg h
    cases h

/-- C6 amended: a hunk index at or beyond the number of unstaged hunks
of the file makes git_stage_hunk fail with the PathError variant
carrying the out-of-range message, and the repo -- in particular its
index -- is returned unchanged. -/
theorem stage_hunk_out_of_range_spec (r : Repo) (file : String) (k : Nat)
    (hdiff : alookup r.index file ≠ alookup r.worktree file)
    (hk : k ≥ numHunks ((alookup r.index file).getD [])
      ((alookup r.worktree file).getD [])) :
    git_stage_hunk r file k =
      (r, some (.PathError ("Hunk index " ++ toString k ++
        " out of range (file has " ++
        toString (numHunks ((alookup r.index file).getD [])
          ((alookup r.worktree file).getD [])) ++ " hunks)"))) := by
  simp only [git_stage_hunk, if_neg hdiff, if_pos hk]

/-- C6 amended witness: one unstaged hunk, hunk index 1. -/
theorem stage_hunk_out_of_range_spec_witness :
    git_stage_hunk ⟨[⟨none, [("a", ["x"])], "init"⟩], 0, [("a", ["x"])],
        [("a", ["y"])]⟩ "a" 1 =
      (⟨[⟨none, [("a", ["x"])], "init"⟩], 0, [("a", ["x"])], [("a", ["y"])]⟩,
       some (.PathError ("Hunk index " ++ toString 1 ++
        " out of range (file has " ++
        toString (numHunks ((alookup ([("a", ["x"])] : Tree) "a").getD [])
          ((alookup ([("a", ["y"])] : Tree) "a").getD [])) ++ " hunks)"))) :=
  stage_hunk_out_of_range_spec
    ⟨[⟨none, [("a", ["x"])], "init"⟩], 0, [("a", ["x"])], [("a", ["y"])]⟩
    "a" 1 (by decide) (by decide)

end Git

namespace Locks

/-!
Model of the per-workspace serialisation from mado-daemon/src/server.rs.
WorkspaceLocks::acquire(P) (lines 30-49) hands out a guard on the
per-path mutex; every workspace handler (save / list / diff / restore /
changes / status / file diff / stage / unstage / batch variants /
stage-hunk / branch-info / push, lines 570-1052) binds that guard
before its Git operation and drops it when the handler returns, so the
whole Git operation runs inside the critical section.  Two handler
instances that resolved the same working directory are modelled as two
threads, each executing acquire, a sequence of filesystem effects, and
release; the scheduler interleaves them arbitrarily.
-/

/-- Static shape of the two competing handlers: how many filesystem
effects each performs inside its Git critical section. -/
structure LockSys where
  effCount : Fin 2 → Nat

/-- Dynamic state: per-thread program counter, mutex holder, the order
of lock acquisitions and the log of filesystem effects.  pc 0 is
before acquire, pc in [1, effCount] is about to perform effect pc-1,
pc = effCount+1 is about to release, pc = effCount+2 is done. -/
structure LState where
  pc : Fin 2 → Nat
  lock : Option (Fin 2)
  acqOrder : List (Fin 2)
  log : List (Fin 2 × Nat)

/-- Pointwise update of a thread-indexed function. -/
def upd (f : Fin 2 → Nat) (t : Fin 2) (v : Nat) : Fin 2 → Nat :=
  fun t' => if t' = t then v else f t'

/-- Initial state: both handlers before their acquire. -/
def initState : LState := ⟨fun _ => 0, none, [], []⟩

/-- Interleaving semantics.  acquire blocks while the mutex is held
(the tokio mutex of WorkspaceLocks); an effect step requires the
thread to hold the mutex, which is how the handlers are written (the
guard lives across the whole Git call); release drops the guard. -/
inductive Step (sys : LockSys) : LState → LState → Prop where
  | acquire (s : LState) (t : Fin 2) (hpc : s.pc t = 0) (hlock : s.lock = none) :
      Step sys s ⟨upd s.pc t 1, some t, s.acqOrder ++ [t], s.log⟩
  | eff (s : LState) (t : Fin 2) (hlo : 1 ≤ s.pc t) (hhi : s.pc t ≤ sys.effCount t)
      (hlock : s.lock = some t) :
      Step sys s ⟨upd s.pc t (s.pc t + 1), s.lock, s.acqOrder,
        s.log ++ [(t, s.pc t - 1)]⟩
  | release (s : LState) (t : Fin 2) (hpc : s.pc t = sys.effCount t + 1)
      (hlock : s.lock = some t) :
      Step sys s ⟨upd s.pc t (sys.effCount t + 2), none, s.acqOrder, s.log⟩

/-- Reachability from the initial state. -/
inductive Reachable (sys : LockSys) : LState → Prop where
  | init : Reachable sys initState
  | step (s s' : LState) : Reachable sys s → Step sys s s' → Reachable sys s'

/-- Thread t is inside its Git critical section (it holds, or is
entitled to hold, the guard: between acquire and release). -/
def holding (sys : LockSys) (s : LState) (t : Fin 2) : Prop :=
  1 ≤ s.pc t ∧ s.pc t ≤ sys.effCount t + 1

/-- The filesystem effects of thread t, in program order. -/
def block (t : Fin 2) (n : Nat) : List (Fin 2 × Nat) :=
  (List.range n).map (fun i => (t, i))

/-- Concatenation of per-thread effect blocks over a thread list. -/
def blocks (f : Fin 2 → List (Fin 2 × Nat)) : List (Fin 2) → List (Fin 2 × Nat)
  | [] => []
  | t :: rest => f t ++ blocks f rest

/-- Number of effects thread t has completed. -/
def doneCount (sys : LockSys) (s : LState) (t : Fin 2) : Nat :=
  min (s.pc t - 1) (sys.effCount t)

theorem upd_self (f : Fin 2 → Nat) (t : Fin 2) (v : Nat) : upd f t v t = v := by
  simp [upd]

theorem upd_ne (f : Fin 2 → Nat) (t t' : Fin 2) (v : Nat) (h : t' ≠ t) :
    upd f t v t' = f t' := by
  simp [upd, h]

theorem block_succ (t : Fin 2) (n : Nat) :
    block t (n + 1) = block t n ++ [(t, n)] := by
  simp [block, List.range_succ]

/-- Inductive invariant: the reachable states, by the shape of the
acquisition history. -/
def Inv (sys : LockSys) (s : LState) : Prop :=
  (s.acqOrder = [] ∧ s.lock = none ∧ (∀ t, s.pc t = 0) ∧ s.log = []) ∨
  (∃ t, s.acqOrder = [t] ∧ s.lock = some t ∧
    1 ≤ s.pc t ∧ s.pc t ≤ sys.effCount t + 1 ∧
    (∀ u, u ≠ t → s.pc u = 0) ∧ s.log = block t (s.pc t - 1)) ∨
  (∃ t, s.acqOrder = [t] ∧ s.lock = none ∧ s.pc t = sys.effCount t + 2 ∧
    (∀ u, u ≠ t → s.pc u = 0) ∧ s.log = block t (sys.effCount t)) ∨
  (∃ t u, t ≠ u ∧ s.acqOrder = [t, u] ∧ s.lock = some u ∧
    s.pc t = sys.effCount t + 2 ∧ 1 ≤ s.pc u ∧ s.pc u ≤ sys.effCount u + 1 ∧
    s.log = block t (sys.effCount t) ++ block u (s.pc u - 1)) ∨
  (∃ t u, t ≠ u ∧ s.acqOrder = [t, u] ∧ s.lock = none ∧
    s.pc t = sys.effCount t + 2 ∧ s.pc u = sys.effCount u + 2 ∧
    s.log = block t (sys.effCount t) ++ block u (sys.effCount u))

theorem fin2_third : ∀ a b c : Fin 2, a = b ∨ a = c ∨ b = c := by decide

theorem inv_init (sys : LockSys) : Inv sys initState := by
  left
  exact ⟨rfl, rfl, fun _ => rfl, rfl⟩

theorem inv_step (sys : LockSys) (s s' : LState) (hinv : Inv sys s)
    (hstep : Step sys s s') : Inv sys s' := by
  cases hstep with
  | acquire t hpc hlock =>
    rcases hinv with ⟨ha, hl, hp, hg⟩ | ⟨t0, ha, hl, _, _, _, _⟩ |
        ⟨t0, ha, hl, hpt, ho, hg⟩ | ⟨t0, u0, _, _, hl, _, _, _, _⟩ |
        ⟨t0, u0, hne, ha, hl, hpt, hpu, hg⟩
    · -- first acquisition
      right; left
      refine ⟨t, by simp [ha], rfl, ?_, ?_, ?_, ?_⟩
      · simp [upd]
      · simp [upd]
      · intro u hu
        simp only [upd, if_neg hu]
        exact hp u
      · simp [upd, hg, block]
    · rw [hl] at hlock; cases hlock
    · -- second acquisition, after the first holder finished
      have hne : t ≠ t0 := by
        intro he; rw [he] at hpc; omega
      right; right; right; left
      refine ⟨t0, t, fun he => hne he.symm, by simp [ha], rfl, ?_, ?_, ?_, ?_⟩
      · simp only [upd, if_neg (Ne.symm hne)]
        exact hpt
      · simp [upd]
      · simp [upd]
      · simp [upd, hg, block]
    · rw [hl] at hlock; cases hlock
    · -- both threads already ran: no third thread exists
      exfalso
      have h0 : t ≠ t0 := by
        intro he; rw [he] at hpc; omega
      have h1 : t ≠ u0 := by
        intro he; rw [he] at hpc; omega
      rcases fin2_third t t0 u0 with h | h | h
      · exact h0 h
      · exact h1 h
      · exact hne h
  | eff t hlo hhi hlock =>
    rcases hinv with ⟨ha, hl, hp, hg⟩ | ⟨t0, ha, hl, hlo0, hhi0, ho, hg⟩ |
        ⟨t0, ha, hl, hpt, ho, hg⟩ | ⟨t0, u0, hne, ha, hl, hpt, hlou, hhiu, hg⟩ |
        ⟨t0, u0, hne, ha, hl, hpt, hpu, hg⟩
    · rw [hl] at hlock; cases hlock
    · -- sole holder performs an effect
      rw [hl] at hlock
      injection hlock with he
      subst he
      right; left
      refine ⟨t0, ha, hl, ?_, ?_, ?_, ?_⟩
      · simp [upd]
      · simp [upd]
        omega
      · intro u hu
        simp only [upd, if_neg hu]
        exact ho u hu
      · have h1 : s.pc t0 - 1 + 1 = s.pc t0 := by omega
        have hupd : upd s.pc t0 (s.pc t0 + 1) t0 = s.pc t0 + 1 := by simp [upd]
        have hrhs := block_succ t0 (s.pc t0 - 1)
        rw [h1] at hrhs
        show s.log ++ [(t0, s.pc t0 - 1)] =
          block t0 (upd s.pc t0 (s.pc t0 + 1) t0 - 1)
        rw [hupd, Nat.add_sub_cancel, hg, hrhs]
    · rw [hl] at hlock; cases hlock
    · -- second holder performs an effect
      rw [hl] at hlock
      injection hlock with he
      subst he
      right; right; right; left
      refine ⟨t0, u0, hne, ha, hl, ?_, ?_, ?_, ?_⟩
      · simp only [upd, if_neg hne]
        exact hpt
      · simp [upd]
      · simp [upd]
        omega
      · have h1 : s.pc u0 - 1 + 1 = s.pc u0 := by omega
        have hupd : upd s.pc u0 (s.pc u0 + 1) u0 = s.pc u0 + 1 := by simp [upd]
        have hrhs := block_succ u0 (s.pc u0 - 1)
        rw [h1] at hrhs
        show s.log ++ [(u0, s.pc u0 - 1)] =
          block t0 (sys.effCount t0) ++ block u0 (upd s.pc u0 (s.pc u0 + 1) u0 - 1)
        rw [hupd, Nat.add_sub_cancel, hg, hrhs, List.append_assoc]
    · rw [hl] at hlock; cases hlock
  | release t hpc hlock =>
    rcases hinv with ⟨ha, hl, hp, hg⟩ | ⟨t0, ha, hl, hlo0, hhi0, ho, hg⟩ |
        ⟨t0, ha, hl, hpt, ho, hg⟩ | ⟨t0, u0, hne, ha, hl, hpt, hlou, hhiu, hg⟩ |
        ⟨t0, u0, hne, ha, hl, hpt, hpu, hg⟩
    · rw [hl] at hlock; cases hlock
    · -- sole holder releases
      rw [hl] at hlock
      injection hlock with he
      subst he
      right; right; left
      refine ⟨t0, ha, rfl, ?_, ?_, ?_⟩
      · simp [upd]
      · intro u hu
        simp only [upd, if_neg hu]
        exact ho u hu
      · simp [hg, hpc]
    · rw [hl] at hlock; cases hlock
    · -- second holder releases
      rw [hl] at hlock
      injection hlock with he
      subst he
      right; right; right; right
      refine ⟨t0, u0, hne, ha, rfl, ?_, ?_, ?_⟩
      · simp only [upd, if_neg hne]
        exact hpt
      · simp [upd]
      · simp [hg, hpc]
    · rw [hl] at hlock; cases hlock

theorem inv_reachable (sys : LockSys) (s : LState) (hr : Reachable sys s) :
    Inv sys s := by
  induction hr with
  | init => exact inv_init sys
  | step s s' _ hstep ih => exact inv_step sys s s' ih hstep

/-- C2. In every reachable interleaving of two workspace handlers on
the same working directory: the Git critical sections never overlap
(at most one thread is between its acquire and its release), and the
filesystem-effect log is exactly the per-thread effect blocks
concatenated in lock-acquisition order, each block in program
order. -/
theorem workspace_lock_serializes (sys : LockSys) (s : LState)
    (hr : Reachable sys s) :
    (¬ (holding sys s 0 ∧ holding sys s 1)) ∧
    s.log = blocks (fun t => block t (doneCount sys s t)) s.acqOrder := by
  have hinv := inv_reachable sys s hr
  constructor
  · rintro ⟨⟨hlo0, hhi0⟩, hlo1, hhi1⟩
    rcases hinv with ⟨_, _, hp, _⟩ | ⟨t0, _, _, _, _, ho, _⟩ |
        ⟨t0, _, _, hpt, ho, _⟩ | ⟨t0, u0, hne, _, _, hpt, _, _, _⟩ |
        ⟨t0, u0, hne, _, _, hpt, hpu, _⟩
    · have := hp 0; omega
    · rcases fin2_third t0 0 1 with h | h | h
      · subst h; have := ho 1 (by decide); omega
      · subst h; have := ho 0 (by decide); omega
      · exact absurd h (by decide)
    · rcases fin2_third t0 0 1 with h | h | h
      · subst h; have := ho 1 (by decide); omega
      · subst h; have := ho 0 (by decide); omega
      · exact absurd h (by decide)
    · rcases fin2_third t0 0 1 with h | h | h
      · subst h
        have hu : u0 = 1 := by
          rcases fin2_third u0 0 1 with h' | h' | h'
          · exact absurd h'.symm hne
          · exact h'
          · exact absurd h' (by decide)
        subst hu; omega
      · subst h
        have hu : u0 = 0 := by
          rcases fin2_third u0 1 0 with h' | h' | h'
          · exact absurd h'.symm hne
          · exact h'
          · exact absurd h'.symm (by decide)
        subst hu; omega
      · exact absurd h (by decide)
    · rcases fin2_third t0 0 1 with h | h | h
      · subst h; omega
      · subst h
        have hu : u0 = 0 := by
          rcases fin2_third u0 1 0 with h' | h' | h'
          · exact absurd h'.symm hne
          · exact h'
          · exact absurd h'.symm (by decide)
        subst hu; omega
      · exact absurd h (by decide)
  · rcases hinv with ⟨ha, _, _, hg⟩ | ⟨t0, ha, _, hlo0, hhi0, _, hg⟩ |
        ⟨t0, ha, _, hpt, _, hg⟩ | ⟨t0, u0, _, ha, _, hpt, hlou, hhiu, hg⟩ |
        ⟨t0, u0, _, ha, _, hpt, hpu, hg⟩
    · rw [ha, hg]; rfl
    · have hmin : min (s.pc t0 - 1) (sys.effCount t0) = s.pc t0 - 1 := by omega
      simp [ha, hg, blocks, doneCount, hmin]
    · have hmin : min (s.pc t0 - 1) (sys.effCount t0) = sys.effCount t0 := by omega
      simp [ha, hg, blocks, doneCount, hmin]
    · have hmin1 : min (s.pc t0 - 1) (sys.effCount t0) = sys.effCount t0 := by omega
      have hmin2 : min (s.pc u0 - 1) (sys.effCount u0) = s.pc u0 - 1 := by omega
      simp [ha, hg, blocks, doneCount, hmin1, hmin2]
    · have hmin1 : min (s.pc t0 - 1) (sys.effCount t0) = sys.effCount t0 := by omega
      have hmin2 : min (s.pc u0 - 1) (sys.effCount u0) = sys.effCount u0 := by omega
      simp [ha, hg, blocks, doneCount, hmin1, hmin2]

/-- C2 witness: both handlers with one Git effect each run to
completion, thread 0 acquiring first; the effect log is the block of
thread 0 followed by the block of thread 1. -/
theorem workspace_lock_serializes_witness :
    (¬ (holding ⟨fun _ => 1⟩
          ⟨upd (upd (upd (upd (upd (upd (fun _ => 0) 0 1) 0 2) 0 3) 1 1) 1 2) 1 3,
           none, [0, 1], [(0, 0), (1, 0)]⟩ 0 ∧
        holding ⟨fun _ => 1⟩
          ⟨upd (upd (upd (upd (upd (upd (fun _ => 0) 0 1) 0 2) 0 3) 1 1) 1 2) 1 3,
           none, [0, 1], [(0, 0), (1, 0)]⟩ 1)) ∧
    ([(0, 0), (1, 0)] : List (Fin 2 × Nat)) =
      blocks (fun t => block t (doneCount ⟨fun _ => 1⟩
        ⟨upd (upd (upd (upd (upd (upd (fun _ => 0) 0 1) 0 2) 0 3) 1 1) 1 2) 1 3,
         none, [0, 1], [(0, 0), (1, 0)]⟩ t)) [0, 1] :=
  workspace_lock_serializes ⟨fun _ => 1⟩
    ⟨upd (upd (upd (upd (upd (upd (fun _ => 0) 0 1) 0 2) 0 3) 1 1) 1 2) 1 3,
     none, [0, 1], [(0, 0), (1, 0)]⟩
    (Reachable.step _ _
      (Reachable.step _ _
        (Reachable.step _ _
          (Reachable.step _ _
            (Reachable.step _ _
              (Reachable.step _ _ Reachable.init
                (Step.acquire _ 0 rfl rfl))
              (Step.eff _ 0 (by decide) (by decide) rfl))
            (Step.release _ 0 (by decide) rfl))
          (Step.acquire _ 1 (by decide) rfl))
        (Step.eff _ 1 (by decide) (by decide) rfl))
      (Step.release _ 1 (by decide) rfl))

end Locks

end Mado
